import Mathlib

/-!
# Verification of the NSE stock-market technical-indicator engine

Shallow embedding of the time-series indicator library, the resampler, the
signal scorer and the financial-metrics helpers of the repository
(`utils.js`, `apiAdapter.js`, `useTechnicalAnalysis.js`).  JavaScript numbers
are modelled as exact rationals `ℚ`; the only transcendental operations
(`Math.sqrt`, `Math.pow`) are abstracted as explicit function parameters so
that every definition stays computable while the control flow is translated
verbatim.  JavaScript `null`/`NaN` slots in arrays are modelled as
`Option ℚ` (`none` = invalid point), and the `'N/A'`-string/NaN/Infinity
behaviour of financial values is modelled explicitly where a claim needs it.
-/

namespace StockNSE

/-! ## IndicatorLibrary: SMA (utils.js `calculateSMAInternal`) -/

/-- Source `calculateSMAInternal(data, period)`: for each `i` from `period-1` to
`n-1`, push the mean of the trailing `period`-window.  Empty if `n < period`. -/
def calculateSMAInternal (data : List ℚ) (period : ℕ) : List ℚ :=
  if data.length < period then []
  else (List.range (data.length - period + 1)).map
    (fun j => ((data.drop j).take period).sum / period)

/-! ## IndicatorLibrary: EMA (utils.js `calculateEMAInternal`) -/

/-- The loop `for (i = period; i < n; i++) { ema = data[i]*k + ema*(1-k) }`
of `calculateEMAInternal`, emitting each successive value. -/
def emaFrom (k : ℚ) (prev : ℚ) : List ℚ → List ℚ
  | [] => []
  | x :: xs =>
    let e := x * k + prev * (1 - k)
    e :: emaFrom k e xs

/-- Source `calculateEMAInternal(data, period)`: SMA seed over the first `period`
points, then the exponential recurrence with `k = 2/(period+1)`.
Empty if `n < period`. -/
def calculateEMAInternal (data : List ℚ) (period : ℕ) : List ℚ :=
  if data.length < period then []
  else
    let k : ℚ := 2 / (period + 1)
    let seed : ℚ := (data.take period).sum / period
    seed :: emaFrom k seed (data.drop period)

theorem emaFrom_length (k prev : ℚ) (l : List ℚ) :
    (emaFrom k prev l).length = l.length := by
  induction l generalizing prev with
  | nil => rfl
  | cons x xs ih => simp [emaFrom, ih]

/-- Recurrence for the list `prev :: emaFrom k prev l`: entry `j+1` is
`l[j]·k + (entry j)·(1-k)`. -/
theorem emaFrom_getD_succ (k : ℚ) (l : List ℚ) :
    ∀ (prev : ℚ) (j : ℕ), j < l.length →
      (prev :: emaFrom k prev l).getD (j + 1) 0 =
        l.getD j 0 * k + (prev :: emaFrom k prev l).getD j 0 * (1 - k) := by
  induction l with
  | nil => intro prev j h; simp at h
  | cons x xs ih =>
    intro prev j h
    cases j with
    | zero => simp [emaFrom]
    | succ m =>
      have hm : m < xs.length := by simpa using h
      simpa [emaFrom] using ih (x * k + prev * (1 - k)) m hm

/-! ## IndicatorLibrary: RSI (utils.js `calculateRSIInternal`) -/

/-- The Wilder-smoothing loop of `calculateRSIInternal`
(`for (i = period+1; i < n; i++)`), consuming the remaining price changes. -/
def rsiLoop (period : ℕ) (avgGain avgLoss : ℚ) : List ℚ → List ℚ
  | [] => []
  | c :: cs =>
    let g : ℚ := if c > 0 then c else 0
    let l : ℚ := if c > 0 then 0 else -c
    let ag := (avgGain * ((period : ℚ) - 1) + g) / period
    let al := (avgLoss * ((period : ℚ) - 1) + l) / period
    let rsi : ℚ := if al = 0 then 100 else 100 - 100 / (1 + ag / al)
    rsi :: rsiLoop period ag al cs

/-- Source `calculateRSIInternal(data, period)`: needs at least `period+1` points;
initial average gain/loss is a simple mean over the first `period` changes,
further points use Wilder smoothing (`avgLoss == 0` is treated as `RSI = 100`,
matching `RS = Infinity` in the source). -/
def calculateRSIInternal (data : List ℚ) (period : ℕ) : List ℚ :=
  if data.length < period + 1 then []
  else
    let deltas := List.zipWith (fun a b => a - b) data.tail data
    let init := (deltas.take period).foldl
      (fun acc c => if c > 0 then (acc.1 + c, acc.2) else (acc.1, acc.2 - c))
      ((0 : ℚ), (0 : ℚ))
    rsiLoop period (init.1 / period) (init.2 / period) (deltas.drop period)

theorem rsiLoop_length (period : ℕ) (l : List ℚ) :
    ∀ ag al, (rsiLoop period ag al l).length = l.length := by
  induction l with
  | nil => intro ag al; rfl
  | cons c cs ih => intro ag al; simp [rsiLoop, ih]

/-- Claim C1 (corrected). `RSI(data, p)` is empty when `data.length < p+1`; but
for `data.length ≥ p+1` its length is `data.length − p − 1`, not
`data.length − p` as claimed: the loop producing RSI values starts at index
`period+1` of the data, so one fewer value is emitted. -/
theorem C1_rsi_length (data : List ℚ) (period : ℕ) :
    (data.length < period + 1 → calculateRSIInternal data period = []) ∧
    (period + 1 ≤ data.length →
      (calculateRSIInternal data period).length = data.length - period - 1) := by
  constructor
  · intro h
    simp [calculateRSIInternal, h]
  · intro h
    have hlt : ¬ data.length < period + 1 := by omega
    have htail : data.tail.length = data.length - 1 := by
      cases data with
      | nil => simp at h
      | cons x xs => simp
    simp [calculateRSIInternal, hlt, rsiLoop_length]
    omega

/-- Claim C1 counterexample: `[1,2]` has length `2 ≥ 1+1`, the claim predicts
an output of length `2 − 1 = 1`, but the code returns the empty array. -/
theorem C1_rsi_length_counterexample :
    (calculateRSIInternal [1, 2] 1).length ≠ ([(1 : ℚ), 2].length - 1) := by
  norm_num [calculateRSIInternal, rsiLoop]

/-- Claim C1 witness: both branches of the length theorem at concrete inputs. -/
theorem C1_rsi_length_witness :
    calculateRSIInternal [(1 : ℚ)] 1 = [] ∧
    (calculateRSIInternal [1, 2, 3] 1).length = 3 - 1 - 1 :=
  ⟨(C1_rsi_length [(1 : ℚ)] 1).1 (by norm_num),
   (C1_rsi_length [1, 2, 3] 1).2 (by norm_num)⟩

/-- Claim C4 (confirmed). `EMA(data, period)` for `data.length ≥ period` has
length `data.length − period + 1`, first entry the SMA of the first `period`
points, subsequent entries `data[period+j]·k + ema_prev·(1−k)` with
`k = 2/(period+1)`; and `EMA([1,2,3,4,5], 3) = [2, 3, 4]`. -/
theorem C4_ema_seed_and_recurrence (data : List ℚ) (period : ℕ)
    (h1 : 1 ≤ period) (h2 : period ≤ data.length) :
    (calculateEMAInternal data period).length = data.length - period + 1 ∧
    (calculateEMAInternal data period).getD 0 0 = (data.take period).sum / period ∧
    (∀ j, j + 1 < (calculateEMAInternal data period).length →
      (calculateEMAInternal data period).getD (j + 1) 0 =
        data.getD (period + j) 0 * (2 / ((period : ℚ) + 1)) +
          (calculateEMAInternal data period).getD j 0 * (1 - 2 / ((period : ℚ) + 1))) ∧
    calculateEMAInternal [1, 2, 3, 4, 5] 3 = [2, 3, 4] := by
  have hlt : ¬ data.length < period := by omega
  refine ⟨?_, ?_, ?_, by norm_num [calculateEMAInternal, emaFrom]⟩
  · simp [calculateEMAInternal, hlt, emaFrom_length]
  · simp [calculateEMAInternal, hlt]
  · intro j hj
    have hlen : (calculateEMAInternal data period).length =
        data.length - period + 1 := by
      simp [calculateEMAInternal, hlt, emaFrom_length]
    have hjlt : j < (data.drop period).length := by
      rw [hlen] at hj
      simp only [List.length_drop]
      omega
    have hrec := emaFrom_getD_succ (2 / ((period : ℚ) + 1)) (data.drop period)
      ((data.take period).sum / period) j hjlt
    have hdrop : (data.drop period).getD j 0 = data.getD (period + j) 0 := by
      simp [List.getD_eq_getElem?_getD, List.getElem?_drop]
    simpa [calculateEMAInternal, hlt, hdrop] using hrec

/-- Claim C4 witness: the theorem applied at `data = [1,2,3,4,5]`, `period = 3`. -/
theorem C4_ema_seed_and_recurrence_witness :
    (calculateEMAInternal [1, 2, 3, 4, 5] 3).length = 5 - 3 + 1 ∧
    calculateEMAInternal [1, 2, 3, 4, 5] 3 = [2, 3, 4] :=
  ⟨(C4_ema_seed_and_recurrence [1, 2, 3, 4, 5] 3 (by norm_num) (by norm_num)).1,
   (C4_ema_seed_and_recurrence [1, 2, 3, 4, 5] 3 (by norm_num) (by norm_num)).2.2.2⟩

/-! ## FinancialMetricsEngine: CAGR (utils.js `calculateCAGRInternal`)

The source first returns the N/A default when `startVal === 0` (or
`years <= 0` or a non-numeric input), and only then applies the
`startVal <= 0 || endVal <= 0` guard returning `'Not Meaningful'`.
`Math.pow` is abstracted as the parameter `powFn`; numeric inputs are
modelled as rationals. -/

/-- Result of `calculateCAGRInternal`: the `'N/A'` default, the
`'Not Meaningful'` sentinel, or a computed percentage. -/
inductive CAGRResult where
  | notAvailable : CAGRResult
  | notMeaningful : CAGRResult
  | value : ℚ → CAGRResult
deriving DecidableEq

/-- Source `calculateCAGRInternal(endValue, startValue, years)` on numeric inputs,
with `Math.pow` passed in as `powFn`. -/
def calculateCAGRInternal (powFn : ℚ → ℚ → ℚ) (endVal startVal years : ℚ) :
    CAGRResult :=
  if startVal = 0 ∨ years ≤ 0 then CAGRResult.notAvailable
  else if startVal ≤ 0 ∨ endVal ≤ 0 then CAGRResult.notMeaningful
  else CAGRResult.value ((powFn (endVal / startVal) (1 / years) - 1) * 100)

/-- Claim C5 (corrected). With `years > 0`: a zero `start` yields the N/A
default, not `'Not Meaningful'`; for nonzero `start` the `start ≤ 0 ∨ end ≤ 0`
guard yields `'Not Meaningful'`; positive operands yield the computed value;
and `CAGR(end = -5, start = 10, years = 2)` is `'Not Meaningful'`. -/
theorem C5_cagr_sign_guard (powFn : ℚ → ℚ → ℚ) (endVal startVal years : ℚ)
    (hy : 0 < years) :
    (startVal = 0 →
      calculateCAGRInternal powFn endVal startVal years = CAGRResult.notAvailable) ∧
    (startVal ≠ 0 → startVal ≤ 0 ∨ endVal ≤ 0 →
      calculateCAGRInternal powFn endVal startVal years = CAGRResult.notMeaningful) ∧
    (0 < startVal → 0 < endVal →
      calculateCAGRInternal powFn endVal startVal years =
        CAGRResult.value ((powFn (endVal / startVal) (1 / years) - 1) * 100)) ∧
    calculateCAGRInternal powFn (-5) 10 2 = CAGRResult.notMeaningful := by
  have hy' : ¬ years ≤ 0 := not_le.mpr hy
  refine ⟨?_, ?_, ?_, ?_⟩
  · intro h0
    simp [calculateCAGRInternal, h0]
  · intro h0 hle
    simp [calculateCAGRInternal, h0, hy', hle]
  · intro hs he
    have h0 : ¬ (startVal = 0 ∨ years ≤ 0) := by
      push_neg
      exact ⟨ne_of_gt hs, hy⟩
    have h1 : ¬ (startVal ≤ 0 ∨ endVal ≤ 0) := by
      push_neg
      exact ⟨hs, he⟩
    simp [calculateCAGRInternal, h0, h1]
  · norm_num [calculateCAGRInternal]

/-- Claim C5 counterexample to the claim as stated: `start = 0 ≤ 0`, yet the
code returns the N/A default rather than the `'Not Meaningful'` sentinel. -/
theorem C5_cagr_sign_guard_counterexample :
    calculateCAGRInternal (fun _ _ => 0) 5 0 2 = CAGRResult.notAvailable ∧
    calculateCAGRInternal (fun _ _ => 0) 5 0 2 ≠ CAGRResult.notMeaningful := by
  have h : calculateCAGRInternal (fun _ _ => 0) 5 0 2 = CAGRResult.notAvailable := by
    norm_num [calculateCAGRInternal]
  refine ⟨h, ?_⟩
  rw [h]
  simp

/-- Claim C5 witness: the theorem applied at `end = -5`, `start = 10`,
`years = 2` with a concrete `powFn`. -/
theorem C5_cagr_sign_guard_witness :
    calculateCAGRInternal (fun _ _ => 0) (-5) 10 2 = CAGRResult.notMeaningful :=
  (C5_cagr_sign_guard (fun _ _ => 0) (-5) 10 2 (by norm_num)).2.2.2

/-! ## SignalScorer: final classification (useTechnicalAnalysis.js) -/

/-- Realized outcomes of the signal classification in
`useTechnicalAnalysis.js` (`'Bullish'`, `'Bearish'`, `'Neutral'`,
`'Not Enough Data for Signal'`). -/
inductive SignalClass where
  | bullish : SignalClass
  | bearish : SignalClass
  | neutral : SignalClass
  | notEnoughData : SignalClass
deriving DecidableEq

/-- The classification block: `Neutral` default, `Bullish` when
`B > R·1.1`, else `Bearish` when `R > B·1.1`; overridden by
`'Not Enough Data for Signal'` when no reasons and both scores are `0`. -/
def classifySignal (totalBullishScore totalBearishScore : ℚ)
    (numReasons : ℕ) : SignalClass :=
  let base :=
    if totalBullishScore > totalBearishScore * (11 / 10) then SignalClass.bullish
    else if totalBearishScore > totalBullishScore * (11 / 10) then SignalClass.bearish
    else SignalClass.neutral
  if numReasons = 0 ∧ totalBullishScore = 0 ∧ totalBearishScore = 0 then
    SignalClass.notEnoughData
  else base

/-- Claim C3 (confirmed). For non-negative accumulated scores `B`, `R`:
classification is `Bullish` iff `B > R·1.1`, `Bearish` iff `R > B·1.1`,
`Neutral` otherwise, and the no-votes case (`B = 0`, `R = 0`, no reasons)
gives the insufficient-data outcome. -/
theorem C3_signal_classification (B R : ℚ) (nr : ℕ)
    (hB : 0 ≤ B) (hR : 0 ≤ R) :
    (classifySignal B R nr = SignalClass.bullish ↔ B > R * (11 / 10)) ∧
    (classifySignal B R nr = SignalClass.bearish ↔ R > B * (11 / 10)) ∧
    (classifySignal B R nr = SignalClass.neutral ↔
      (¬ B > R * (11 / 10) ∧ ¬ R > B * (11 / 10) ∧
        ¬ (nr = 0 ∧ B = 0 ∧ R = 0))) ∧
    ((nr = 0 ∧ B = 0 ∧ R = 0) → classifySignal B R nr = SignalClass.notEnoughData) := by
  have hexcl : ¬ (B > R * (11 / 10) ∧ R > B * (11 / 10)) := by
    rintro ⟨hx, hy⟩
    linarith
  by_cases hOv : nr = 0 ∧ B = 0 ∧ R = 0
  · obtain ⟨hnr, hB0, hR0⟩ := hOv
    subst hB0; subst hR0
    have hcl : classifySignal 0 0 nr = SignalClass.notEnoughData := by
      simp [classifySignal, hnr]
    rw [hcl]
    refine ⟨by simp, by simp, by simp [hnr], fun _ => rfl⟩
  · by_cases hBull : B > R * (11 / 10)
    · have hcl : classifySignal B R nr = SignalClass.bullish := by
        simp [classifySignal, hOv, hBull]
      have hnb : ¬ R > B * (11 / 10) := fun hc => hexcl ⟨hBull, hc⟩
      rw [hcl]
      exact ⟨by simp [hBull], by simp [hnb], by simp [hBull],
        fun hc => absurd hc hOv⟩
    · by_cases hBear : R > B * (11 / 10)
      · have hcl : classifySignal B R nr = SignalClass.bearish := by
          simp [classifySignal, hOv, hBull, hBear]
        rw [hcl]
        exact ⟨by simp [hBull], by simp [hBear], by simp [hBear],
          fun hc => absurd hc hOv⟩
      · have hcl : classifySignal B R nr = SignalClass.neutral := by
          simp [classifySignal, hOv, hBull, hBear]
        rw [hcl]
        exact ⟨by simp [hBull], by simp [hBear], by simp [hBull, hBear, hOv],
          fun hc => absurd hc hOv⟩

/-- Claim C3 witness: `B = 3`, `R = 1`, one reason ⇒ `Bullish`; and the
no-votes case gives the insufficient-data outcome. -/
theorem C3_signal_classification_witness :
    classifySignal 3 1 1 = SignalClass.bullish ∧
    classifySignal 0 0 0 = SignalClass.notEnoughData :=
  ⟨(C3_signal_classification 3 1 1 (by norm_num) (by norm_num)).1.mpr (by norm_num),
   (C3_signal_classification 0 0 0 (by norm_num) (by norm_num)).2.2.2
     ⟨rfl, rfl, rfl⟩⟩

/-! ## SignalScorer: price-vs-moving-average votes
(useTechnicalAnalysis.js, blocks 1 and 2 of the scoring loop) -/

/-- Reason strings emitted by the SMA/EMA voting blocks, abstracted by
direction and period (`"<tf>: Price > SMA p"` etc.). -/
inductive VoteReason where
  | priceAboveSMA : ℕ → VoteReason
  | priceBelowSMA : ℕ → VoteReason
  | priceAboveEMA : ℕ → VoteReason
  | priceBelowEMA : ℕ → VoteReason
deriving DecidableEq

/-- Block 1 of the scoring loop, for one period `p` whose latest SMA value is
`v` (`none` models the `value === null` slot, which is skipped): returns the
`(bullish, bearish, reasons)` contribution. -/
def smaVote (currentPrice tfWeight : ℚ) (p : ℕ) (v : Option ℚ) :
    ℚ × ℚ × List VoteReason :=
  match v with
  | none => (0, 0, [])
  | some avg =>
    if currentPrice > avg then (1 * tfWeight, 0, [VoteReason.priceAboveSMA p])
    else (0, 1 * tfWeight, [VoteReason.priceBelowSMA p])

/-- Block 2 of the scoring loop (EMA), identical shape to `smaVote`. -/
def emaVote (currentPrice tfWeight : ℚ) (p : ℕ) (v : Option ℚ) :
    ℚ × ℚ × List VoteReason :=
  match v with
  | none => (0, 0, [])
  | some avg =>
    if currentPrice > avg then (1 * tfWeight, 0, [VoteReason.priceAboveEMA p])
    else (0, 1 * tfWeight, [VoteReason.priceBelowEMA p])

/-- Claim C10 (confirmed). When the current price equals an available SMA/EMA
value the vote goes to the bearish side with weight `1·w` and a
`"Price < …"` reason; the bullish tuple occurs exactly when
`price > avg`; and with a value present the vote never abstains. -/
theorem C10_ma_tie_votes_bearish (price w avg : ℚ) (p : ℕ) (h : price = avg) :
    smaVote price w p (some avg) = (0, 1 * w, [VoteReason.priceBelowSMA p]) ∧
    emaVote price w p (some avg) = (0, 1 * w, [VoteReason.priceBelowEMA p]) ∧
    (∀ q : ℚ, smaVote price w p (some q) =
        (1 * w, 0, [VoteReason.priceAboveSMA p]) ↔ price > q) ∧
    (∀ q : ℚ, smaVote price w p (some q) =
        (1 * w, 0, [VoteReason.priceAboveSMA p]) ∨
      smaVote price w p (some q) = (0, 1 * w, [VoteReason.priceBelowSMA p])) := by
  subst h
  refine ⟨by simp [smaVote], by simp [emaVote], ?_, ?_⟩
  · intro q
    by_cases hq : price > q
    · simp [smaVote, hq]
    · simp [smaVote, hq]
  · intro q
    by_cases hq : price > q
    · left
      simp [smaVote, hq]
    · right
      simp [smaVote, hq]

/-- Claim C10 witness: price `100` tied with SMA/EMA value `100`, weight `2`. -/
theorem C10_ma_tie_votes_bearish_witness :
    smaVote 100 2 20 (some 100) = (0, 1 * 2, [VoteReason.priceBelowSMA 20]) ∧
    emaVote 100 2 20 (some 100) = (0, 1 * 2, [VoteReason.priceBelowEMA 20]) :=
  ⟨(C10_ma_tie_votes_bearish 100 2 100 20 rfl).1,
   (C10_ma_tie_votes_bearish 100 2 100 20 rfl).2.1⟩

/-! ## Peer list handling (apiAdapter.js `actualPeers`,
utils.js `calculatePeerAverageInternal`)

JS strings are modelled as `List Char` (so that `toUpperCase`,
`toLowerCase`, `split(' ')[0]` are the evident character-level operations);
a peer field that is absent or non-numeric is `none`. -/

/-- JS `String.prototype.toUpperCase` on the character list. -/
def jsToUpper (s : List Char) : List Char := s.map Char.toUpper

/-- JS `String.prototype.toLowerCase` on the character list. -/
def jsToLower (s : List Char) : List Char := s.map Char.toLower

/-- JS `s.split(' ')[0]`: the prefix up to the first space. -/
def firstWord (s : List Char) : List Char := s.takeWhile (fun c => c ≠ ' ')

/-- One record of `companyProfile.peerCompanyList`; `tickerId` and
`companyName` default to the empty string under `getSafe`, a metric field
is `none` when absent or non-numeric. -/
structure Peer where
  tickerId : List Char
  companyName : List Char
  marketCap : Option ℚ
deriving DecidableEq

/-- The `'@#NONE#@'` placeholder used for a missing main-company name. -/
def naPlaceholder : List Char := "@#NONE#@".data

/-- The predicate of the `allPeersRaw.filter(...)` in
`transformStockDataApiResponse`: drop a peer when its upper-cased ticker
matches the (truthy) main NSE code, or when the lower-cased first word of
its name matches the main company's (non-placeholder) first word. -/
def keepPeer (nseCodeMain nameShortMain : List Char) (p : Peer) : Bool :=
  if nseCodeMain ≠ [] ∧ jsToUpper p.tickerId = nseCodeMain then false
  else if jsToLower (firstWord p.companyName) = nameShortMain ∧
      nameShortMain ≠ "@#none#@".data then false
  else true

/-- Source `actualPeers` of apiAdapter.js: the peer list with the primary company
filtered out by NSE-ticker or first-word-of-name match. -/
def mkActualPeers (allPeers : List Peer) (exchangeCodeNse : List Char)
    (companyName : Option (List Char)) : List Peer :=
  let nseCodeMain := jsToUpper exchangeCodeNse
  let nameShortMain := jsToLower (firstWord (companyName.getD naPlaceholder))
  allPeers.filter (keepPeer nseCodeMain nameShortMain)

/-- Source `calculatePeerAverageInternal(peerList, key, formatterFn)`: accumulate
sum and count over the peers whose field parses to a number; `none` models
the `formatterFn(DEFAULT_NA_STRING)` outcome (empty list or no valid entry),
`some avg` the `formatterFn(sum / count)` outcome. -/
def calculatePeerAverageInternal (peerList : List Peer)
    (field : Peer → Option ℚ) : Option ℚ :=
  if peerList.isEmpty then none
  else
    let sc := peerList.foldl
      (fun (acc : ℚ × ℕ) peer =>
        match field peer with
        | some v => (acc.1 + v, acc.2 + 1)
        | none => acc)
      ((0 : ℚ), (0 : ℕ))
    if 0 < sc.2 then some (sc.1 / sc.2) else none

/-- Claim C2 (confirmed). A peer record whose upper-cased ticker equals the
(truthy) main NSE code is excluded from `actualPeers`, hence from every peer
average; in particular, with the primary record at `marketCap = 1000` and
two other peers at `500` and `700`, the peer average market cap is `600`. -/
theorem C2_peer_average_excludes_primary
    (allPeers : List Peer) (exchangeCodeNse : List Char)
    (companyName : Option (List Char)) (primary : Peer)
    (hticker : jsToUpper primary.tickerId = jsToUpper exchangeCodeNse)
    (hne : jsToUpper exchangeCodeNse ≠ []) :
    primary ∉ mkActualPeers allPeers exchangeCodeNse companyName ∧
    calculatePeerAverageInternal
      (mkActualPeers
        [⟨"TICK".data, "Primary Co".data, some 1000⟩,
         ⟨"PEERA".data, "Alpha Ltd".data, some 500⟩,
         ⟨"PEERB".data, "Beta Ltd".data, some 700⟩]
        "tick".data (some "Primary Co".data))
      Peer.marketCap = some 600 := by
  constructor
  · intro hmem
    simp only [mkActualPeers, List.mem_filter] at hmem
    have hkeep := hmem.2
    simp [keepPeer, hne, hticker] at hkeep
  · have hfilter :
        mkActualPeers
          [⟨"TICK".data, "Primary Co".data, some 1000⟩,
           ⟨"PEERA".data, "Alpha Ltd".data, some 500⟩,
           ⟨"PEERB".data, "Beta Ltd".data, some 700⟩]
          "tick".data (some "Primary Co".data) =
        [⟨"PEERA".data, "Alpha Ltd".data, some 500⟩,
         ⟨"PEERB".data, "Beta Ltd".data, some 700⟩] := by
      decide
    rw [hfilter]
    norm_num [calculatePeerAverageInternal]

/-- Claim C2 witness: the theorem applied to the three-record peer list with
the primary record (`marketCap = 1000`) identified by its ticker. -/
theorem C2_peer_average_excludes_primary_witness :
    (⟨"TICK".data, "Primary Co".data, some 1000⟩ : Peer) ∉
      mkActualPeers
        [⟨"TICK".data, "Primary Co".data, some 1000⟩,
         ⟨"PEERA".data, "Alpha Ltd".data, some 500⟩,
         ⟨"PEERB".data, "Beta Ltd".data, some 700⟩]
        "tick".data (some "Primary Co".data) ∧
    calculatePeerAverageInternal
      (mkActualPeers
        [⟨"TICK".data, "Primary Co".data, some 1000⟩,
         ⟨"PEERA".data, "Alpha Ltd".data, some 500⟩,
         ⟨"PEERB".data, "Beta Ltd".data, some 700⟩]
        "tick".data (some "Primary Co".data))
      Peer.marketCap = some 600 :=
  C2_peer_average_excludes_primary
    [⟨"TICK".data, "Primary Co".data, some 1000⟩,
     ⟨"PEERA".data, "Alpha Ltd".data, some 500⟩,
     ⟨"PEERB".data, "Beta Ltd".data, some 700⟩]
    "tick".data (some "Primary Co".data)
    ⟨"TICK".data, "Primary Co".data, some 1000⟩ (by decide) (by decide)

/-! ## IndicatorLibrary: standard deviation and Bollinger Bands
(utils.js `calculateStandardDeviationInternal`,
`calculateBollingerBandsInternal`); `Math.sqrt` is abstracted as the
parameter `sqrtFn`. -/

/-- Source `calculateStandardDeviationInternal(data, period)`: population standard
deviation of each trailing window, aligned like SMA. -/
def calculateStandardDeviationInternal (sqrtFn : ℚ → ℚ) (data : List ℚ)
    (period : ℕ) : List ℚ :=
  if data.length < period then []
  else (List.range (data.length - period + 1)).map
    (fun j =>
      let slice := (data.drop j).take period
      let mean : ℚ := slice.sum / (period : ℚ)
      let variance : ℚ := (slice.map (fun v => (v - mean) ^ (2 : ℕ))).sum / (period : ℚ)
      sqrtFn variance)

/-- Source `calculateBollingerBandsInternal(data, period, numStdDev)` as the triple
`(upper, middle, lower)`; the loop `for (i = 0; i < middleBand.length; i++)`
pushing `middle[i] ± stdDevs[i]·k` is the `zipWith` (both inputs have equal
length). -/
def calculateBollingerBandsInternal (sqrtFn : ℚ → ℚ) (data : List ℚ)
    (period : ℕ) (numStdDev : ℚ) : List ℚ × List ℚ × List ℚ :=
  if data.length < period then ([], [], [])
  else
    let middleBand := calculateSMAInternal data period
    let stdDevs := calculateStandardDeviationInternal sqrtFn data period
    (List.zipWith (fun m s => m + s * numStdDev) middleBand stdDevs,
     middleBand,
     List.zipWith (fun m s => m - s * numStdDev) middleBand stdDevs)

theorem getD_zipWith_of_lt (f : ℚ → ℚ → ℚ) (l1 l2 : List ℚ) (i : ℕ)
    (h1 : i < l1.length) (h2 : i < l2.length) :
    (List.zipWith f l1 l2).getD i 0 = f (l1.getD i 0) (l2.getD i 0) := by
  have hz : i < (List.zipWith f l1 l2).length := by
    rw [List.length_zipWith]
    omega
  rw [List.getD_eq_getElem?_getD, List.getD_eq_getElem?_getD,
    List.getD_eq_getElem?_getD, List.getElem?_eq_getElem hz,
    List.getElem?_eq_getElem h1, List.getElem?_eq_getElem h2]
  simp

/-- Claim C9 (confirmed). For `data.length ≥ period` the Bollinger Bands are
exactly symmetric: `upper[i] − middle[i] = middle[i] − lower[i]` at every
index, for any square-root function and any `k`. -/
theorem C9_bollinger_symmetry (sqrtFn : ℚ → ℚ) (data : List ℚ)
    (period : ℕ) (numStdDev : ℚ) (hn : period ≤ data.length) :
    ∀ i, i < (calculateBollingerBandsInternal sqrtFn data period numStdDev).1.length →
      (calculateBollingerBandsInternal sqrtFn data period numStdDev).1.getD i 0 -
        (calculateBollingerBandsInternal sqrtFn data period numStdDev).2.1.getD i 0 =
      (calculateBollingerBandsInternal sqrtFn data period numStdDev).2.1.getD i 0 -
        (calculateBollingerBandsInternal sqrtFn data period numStdDev).2.2.getD i 0 := by
  intro i hi
  have hlt : ¬ data.length < period := by omega
  have hbb : calculateBollingerBandsInternal sqrtFn data period numStdDev =
      (List.zipWith (fun m s => m + s * numStdDev)
        (calculateSMAInternal data period)
        (calculateStandardDeviationInternal sqrtFn data period),
       calculateSMAInternal data period,
       List.zipWith (fun m s => m - s * numStdDev)
        (calculateSMAInternal data period)
        (calculateStandardDeviationInternal sqrtFn data period)) := by
    simp [calculateBollingerBandsInternal, hlt]
  rw [hbb] at hi ⊢
  simp only [List.length_zipWith] at hi
  have hi' : i < (calculateSMAInternal data period).length ∧
      i < (calculateStandardDeviationInternal sqrtFn data period).length := by
    omega
  dsimp only
  rw [getD_zipWith_of_lt _ _ _ _ hi'.1 hi'.2, getD_zipWith_of_lt _ _ _ _ hi'.1 hi'.2]
  ring

/-- Claim C9 witness: `data = [1, 2, 3]`, `period = 2`, `k = 2`, square root
taken as the identity, at index `0`. -/
theorem C9_bollinger_symmetry_witness :
    (calculateBollingerBandsInternal id [1, 2, 3] 2 2).1.getD 0 0 -
      (calculateBollingerBandsInternal id [1, 2, 3] 2 2).2.1.getD 0 0 =
    (calculateBollingerBandsInternal id [1, 2, 3] 2 2).2.1.getD 0 0 -
      (calculateBollingerBandsInternal id [1, 2, 3] 2 2).2.2.getD 0 0 :=
  C9_bollinger_symmetry id [1, 2, 3] 2 2 (by norm_num) 0
    (by norm_num [calculateBollingerBandsInternal, calculateSMAInternal,
      calculateStandardDeviationInternal])

/-! ## IndicatorLibrary: rolling VWAP (utils.js `calculateRollingVWAPInternal`)

Array slots are `Option ℚ`: `none` models a `null`/`NaN` point, which the
inner loop's `!== null && !isNaN(...)` check skips. -/

/-- The inner loop of `calculateRollingVWAPInternal` at output index `i`:
accumulate `(Σ price·volume, Σ volume)` over `index = i - j` for
`j = 0 … period-1`, skipping invalid points. -/
def vwapWindow (prices volumes : List (Option ℚ)) (period : ℕ) (i : ℕ) :
    ℚ × ℚ :=
  (List.range period).foldl
    (fun acc j =>
      match prices.getD (i - j) none, volumes.getD (i - j) none with
      | some p, some v => (acc.1 + p * v, acc.2 + v)
      | _, _ => acc)
    ((0 : ℚ), (0 : ℚ))

/-- Source `calculateRollingVWAPInternal(prices, volumes, period)`: an all-`null`
array on mismatched lengths or too little data; otherwise `null` below
index `period-1` and the windowed ratio (or `null` when the windowed volume
sum is not positive) from `period-1` on. -/
def calculateRollingVWAPInternal (prices volumes : List (Option ℚ))
    (period : ℕ) : List (Option ℚ) :=
  if prices.length ≠ volumes.length ∨ prices.length < period then
    List.replicate prices.length none
  else
    (List.range prices.length).map
      (fun i =>
        if i < period - 1 then none
        else
          let s := vwapWindow prices volumes period i
          if 0 < s.2 then some (s.1 / s.2) else none)

theorem getD_map_range (f : ℕ → Option ℚ) (n i : ℕ) (h : i < n)
    (d : Option ℚ) : ((List.range n).map f).getD i d = f i := by
  rw [List.getD_eq_getElem?_getD, List.getElem?_map, List.getElem?_range h]
  rfl

/-- With every point of the window valid, the inner loop computes the plain
sums `Σ price·volume` and `Σ volume` over the window. -/
theorem vwapWindow_eq_sums (prices volumes : List (Option ℚ)) (i : ℕ) :
    ∀ period : ℕ,
      (∀ j, j < period →
        (prices.getD (i - j) none).isSome ∧ (volumes.getD (i - j) none).isSome) →
      vwapWindow prices volumes period i =
        (((List.range period).map
            (fun j => ((prices.getD (i - j) none).getD 0) *
              ((volumes.getD (i - j) none).getD 0))).sum,
         ((List.range period).map
            (fun j => (volumes.getD (i - j) none).getD 0)).sum) := by
  intro period
  induction period with
  | zero => intro _; rfl
  | succ k ih =>
    intro hvalid
    have hk := hvalid k (Nat.lt_succ_self k)
    obtain ⟨p, hp⟩ := Option.isSome_iff_exists.mp hk.1
    obtain ⟨v, hv⟩ := Option.isSome_iff_exists.mp hk.2
    have ihk := ih (fun j hj => hvalid j (Nat.lt_succ_of_lt hj))
    unfold vwapWindow at ihk ⊢
    rw [List.range_succ, List.foldl_append, ihk, List.map_append,
      List.map_append, List.sum_append, List.sum_append]
    simp only [List.getD_eq_getElem?_getD] at hp hv
    simp [hp, hv]

/-- Claim C7 (corrected, amended form). For equal-length inputs with
`1 ≤ period ≤ n`: the output has length `n` and is `null` below index
`period-1`; at `i ≥ period-1` it is `null` when the windowed *valid* volume
sum is not positive, and when every point of the window is valid it equals
`Σ(price·volume) / Σ(volume)` over the window — invalid points are skipped
from the sums, not grounds for a `null` output. -/
theorem C7_rolling_vwap (prices volumes : List (Option ℚ)) (period : ℕ)
    (hlen : prices.length = volumes.length) (h1 : 1 ≤ period)
    (hn : period ≤ prices.length) :
    ((calculateRollingVWAPInternal prices volumes period).length = prices.length) ∧
    (∀ i, i < period - 1 →
      (calculateRollingVWAPInternal prices volumes period).getD i none = none) ∧
    (∀ i, period - 1 ≤ i → i < prices.length →
      (vwapWindow prices volumes period i).2 ≤ 0 →
      (calculateRollingVWAPInternal prices volumes period).getD i none = none) ∧
    (∀ i, period - 1 ≤ i → i < prices.length →
      (∀ j, j < period →
        (prices.getD (i - j) none).isSome ∧ (volumes.getD (i - j) none).isSome) →
      0 < ((List.range period).map
            (fun j => (volumes.getD (i - j) none).getD 0)).sum →
      (calculateRollingVWAPInternal prices volumes period).getD i none =
        some ((((List.range period).map
            (fun j => ((prices.getD (i - j) none).getD 0) *
              ((volumes.getD (i - j) none).getD 0))).sum) /
          (((List.range period).map
            (fun j => (volumes.getD (i - j) none).getD 0)).sum))) := by
  have hguard : ¬ (prices.length ≠ volumes.length ∨ prices.length < period) := by
    push_neg
    omega
  have hdef : calculateRollingVWAPInternal prices volumes period =
      (List.range prices.length).map
        (fun i =>
          if i < period - 1 then none
          else
            let s := vwapWindow prices volumes period i
            if 0 < s.2 then some (s.1 / s.2) else none) := by
    rw [calculateRollingVWAPInternal, if_neg hguard]
  refine ⟨?_, ?_, ?_, ?_⟩
  · rw [hdef]
    simp
  · intro i hi
    have hin : i < prices.length := by omega
    rw [hdef, getD_map_range _ _ _ hin, if_pos hi]
  · intro i hge hin hvol
    rw [hdef, getD_map_range _ _ _ hin, if_neg (by omega)]
    have : ¬ 0 < (vwapWindow prices volumes period i).2 := by
      exact not_lt.mpr hvol
    simp only [this, if_false]
  · intro i hge hin hvalid hpos
    rw [hdef, getD_map_range _ _ _ hin, if_neg (by omega)]
    have hw := vwapWindow_eq_sums prices volumes i period hvalid
    simp only [hw, hpos, if_pos]

/-- Claim C7 counterexample to the claim as stated: at `period = 2`, with the
point at index 0 invalid (`null` price), the window at index 1 still has a
positive valid volume sum, so the code outputs the ratio over the valid
points (`6/3 = 2`) where the claim demands `null`. -/
theorem C7_rolling_vwap_counterexample :
    (calculateRollingVWAPInternal [none, some 2] [some 1, some 3] 2).getD 1 none =
      some 2 ∧ (some (2 : ℚ) : Option ℚ) ≠ none := by
  constructor
  · have h2 : List.range 2 = [0, 1] := by decide
    norm_num [calculateRollingVWAPInternal, vwapWindow, h2, List.getD]
  · simp

/-- Claim C7 witness: all-valid two-point input, `period = 2`. -/
theorem C7_rolling_vwap_witness :
    (calculateRollingVWAPInternal [some 1, some 2] [some 1, some 1] 2).length =
      ([some (1 : ℚ), some 2] : List (Option ℚ)).length ∧
    (calculateRollingVWAPInternal [some 1, some 2] [some 1, some 1] 2).getD 0 none =
      none :=
  ⟨(C7_rolling_vwap [some 1, some 2] [some 1, some 1] 2 rfl
      (by norm_num) (by norm_num)).1,
   (C7_rolling_vwap [some 1, some 2] [some 1, some 1] 2 rfl
      (by norm_num) (by norm_num)).2.1 0 (by norm_num)⟩

/-! ## Resampler (utils.js `resampleToWeeklyInternal`,
`resampleToMonthlyInternal`)

Timestamps are epoch-millis integers.  The `Date`-based calendar arithmetic
is abstracted into explicit parameters — `wsFn` (Monday-midnight of the
week of a timestamp), `nFn` (midnight normalization of the next point's
timestamp), `msFn` (first-of-month midnight) and `newMonthFn` (the
year/month comparison of the next timestamp against the bucket start) —
while the bucket-accumulation loop itself is translated verbatim. -/

/-- The weekly bucketing loop over the zipped `((timestamp, price), volume)`
series, carrying `currentWeekStartTime` and `currentWeekVolumeSum`. -/
def resampleWeeklyAux (wsFn nFn : ℤ → ℤ) :
    List ((ℤ × ℚ) × ℚ) → Option ℤ → ℚ → List ℤ × List ℚ × List ℚ
  | [], _, _ => ([], [], [])
  | ((ts, price), vol) :: rest, curStart, curVol =>
    let start := curStart.getD (wsFn ts)
    let volSum := curVol + vol
    let closeBucket : Bool :=
      match rest with
      | [] => true
      | ((nts, _), _) :: _ => decide (start + 7 * 24 * 60 * 60 * 1000 ≤ nFn nts)
    if closeBucket then
      let r := resampleWeeklyAux wsFn nFn rest none 0
      (start :: r.1, price :: r.2.1, volSum :: r.2.2)
    else
      resampleWeeklyAux wsFn nFn rest (some start) volSum

/-- Source `resampleToWeeklyInternal(dailyPricesWithTimestamps, dailyVolumes)` as
`(weeklyTimestamps, weeklyPrices, weeklyVolumes)`. -/
def resampleToWeeklyInternal (wsFn nFn : ℤ → ℤ)
    (dailyPricesWithTimestamps : List (ℤ × ℚ)) (dailyVolumes : List ℚ) :
    List ℤ × List ℚ × List ℚ :=
  if dailyPricesWithTimestamps.length ≠ dailyVolumes.length ∨
      dailyPricesWithTimestamps.length = 0 then ([], [], [])
  else
    resampleWeeklyAux wsFn nFn (dailyPricesWithTimestamps.zip dailyVolumes) none 0

/-- The monthly bucketing loop, same shape with the month-start and
new-month calendar functions. -/
def resampleMonthlyAux (msFn : ℤ → ℤ) (newMonthFn : ℤ → ℤ → Bool) :
    List ((ℤ × ℚ) × ℚ) → Option ℤ → ℚ → List ℤ × List ℚ × List ℚ
  | [], _, _ => ([], [], [])
  | ((ts, price), vol) :: rest, curStart, curVol =>
    let start := curStart.getD (msFn ts)
    let volSum := curVol + vol
    let closeBucket : Bool :=
      match rest with
      | [] => true
      | ((nts, _), _) :: _ => newMonthFn nts start
    if closeBucket then
      let r := resampleMonthlyAux msFn newMonthFn rest none 0
      (start :: r.1, price :: r.2.1, volSum :: r.2.2)
    else
      resampleMonthlyAux msFn newMonthFn rest (some start) volSum

/-- Source `resampleToMonthlyInternal(dailyPricesWithTimestamps, dailyVolumes)` as
`(monthlyTimestamps, monthlyPrices, monthlyVolumes)`. -/
def resampleToMonthlyInternal (msFn : ℤ → ℤ) (newMonthFn : ℤ → ℤ → Bool)
    (dailyPricesWithTimestamps : List (ℤ × ℚ)) (dailyVolumes : List ℚ) :
    List ℤ × List ℚ × List ℚ :=
  if dailyPricesWithTimestamps.length ≠ dailyVolumes.length ∨
      dailyPricesWithTimestamps.length = 0 then ([], [], [])
  else
    resampleMonthlyAux msFn newMonthFn
      (dailyPricesWithTimestamps.zip dailyVolumes) none 0

/-- Loop invariant: on a non-empty remaining series the emitted bucket
volumes sum to the carried accumulator plus all remaining volumes. -/
theorem resampleWeeklyAux_volume_sum (wsFn nFn : ℤ → ℤ) :
    ∀ (l : List ((ℤ × ℚ) × ℚ)), l ≠ [] → ∀ (curStart : Option ℤ) (curVol : ℚ),
      (resampleWeeklyAux wsFn nFn l curStart curVol).2.2.sum =
        curVol + (l.map Prod.snd).sum := by
  intro l
  induction l with
  | nil => intro h; exact absurd rfl h
  | cons x rest ih =>
    intro _ curStart curVol
    obtain ⟨⟨ts, price⟩, vol⟩ := x
    cases rest with
    | nil => simp [resampleWeeklyAux]
    | cons y rest' =>
      have hne : (y :: rest' : List ((ℤ × ℚ) × ℚ)) ≠ [] := by simp
      obtain ⟨⟨nts, nprice⟩, nvol⟩ := y
      rw [resampleWeeklyAux]
      dsimp only
      split
      · simp only [List.sum_cons, ih hne none 0]
        simp [List.sum_cons]
        ring
      · rw [ih hne (some (curStart.getD (wsFn ts))) (curVol + vol)]
        simp [List.sum_cons]
        ring

/-- Loop invariant for the monthly loop, identical to the weekly one. -/
theorem resampleMonthlyAux_volume_sum (msFn : ℤ → ℤ)
    (newMonthFn : ℤ → ℤ → Bool) :
    ∀ (l : List ((ℤ × ℚ) × ℚ)), l ≠ [] → ∀ (curStart : Option ℤ) (curVol : ℚ),
      (resampleMonthlyAux msFn newMonthFn l curStart curVol).2.2.sum =
        curVol + (l.map Prod.snd).sum := by
  intro l
  induction l with
  | nil => intro h; exact absurd rfl h
  | cons x rest ih =>
    intro _ curStart curVol
    obtain ⟨⟨ts, price⟩, vol⟩ := x
    cases rest with
    | nil => simp [resampleMonthlyAux]
    | cons y rest' =>
      have hne : (y :: rest' : List ((ℤ × ℚ) × ℚ)) ≠ [] := by simp
      obtain ⟨⟨nts, nprice⟩, nvol⟩ := y
      rw [resampleMonthlyAux]
      dsimp only
      split
      · simp only [List.sum_cons, ih hne none 0]
        simp [List.sum_cons]
        ring
      · rw [ih hne (some (curStart.getD (msFn ts))) (curVol + vol)]
        simp [List.sum_cons]
        ring

/-- Claim C8 (confirmed). For every non-empty daily series with equal-length
price and volume arrays, the weekly volumes and the monthly volumes each sum
to the daily volume total, for every choice of calendar functions. -/
theorem C8_resample_volume_conservation (wsFn nFn msFn : ℤ → ℤ)
    (newMonthFn : ℤ → ℤ → Bool)
    (dailyPricesWithTimestamps : List (ℤ × ℚ)) (dailyVolumes : List ℚ)
    (hlen : dailyPricesWithTimestamps.length = dailyVolumes.length)
    (hne : dailyPricesWithTimestamps ≠ []) :
    (resampleToWeeklyInternal wsFn nFn
        dailyPricesWithTimestamps dailyVolumes).2.2.sum = dailyVolumes.sum ∧
    (resampleToMonthlyInternal msFn newMonthFn
        dailyPricesWithTimestamps dailyVolumes).2.2.sum = dailyVolumes.sum := by
  have hlen0 : dailyPricesWithTimestamps.length ≠ 0 := by
    simpa [List.length_eq_zero] using hne
  have hguard : ¬ (dailyPricesWithTimestamps.length ≠ dailyVolumes.length ∨
      dailyPricesWithTimestamps.length = 0) := by
    push_neg
    exact ⟨hlen, hlen0⟩
  have hzipne : dailyPricesWithTimestamps.zip dailyVolumes ≠ [] := by
    have hz : (dailyPricesWithTimestamps.zip dailyVolumes).length ≠ 0 := by
      rw [List.length_zip]
      omega
    intro h
    rw [h] at hz
    simp at hz
  have hsnd : (dailyPricesWithTimestamps.zip dailyVolumes).map Prod.snd =
      dailyVolumes :=
    List.map_snd_zip _ _ (le_of_eq hlen.symm)
  constructor
  · rw [resampleToWeeklyInternal, if_neg hguard,
      resampleWeeklyAux_volume_sum wsFn nFn _ hzipne none 0, hsnd]
    ring
  · rw [resampleToMonthlyInternal, if_neg hguard,
      resampleMonthlyAux_volume_sum msFn newMonthFn _ hzipne none 0, hsnd]
    ring

/-- Claim C8 witness: a two-day series split across two buckets by the
concrete calendar functions (`newMonthFn` always closing). -/
theorem C8_resample_volume_conservation_witness :
    (resampleToWeeklyInternal id id [(0, 10), (1, 11)] [4, 5]).2.2.sum =
      ([4, 5] : List ℚ).sum ∧
    (resampleToMonthlyInternal id (fun _ _ => true)
        [(0, 10), (1, 11)] [4, 5]).2.2.sum = ([4, 5] : List ℚ).sum :=
  C8_resample_volume_conservation id id id (fun _ _ => true)
    [(0, 10), (1, 11)] [4, 5] rfl (by simp)

/-! ## FinancialMetricsEngine: Net Profit Margin
(utils.js `calculateProfitabilityMetricsInternal` line
`netProfitMarginRaw = parseFloat(netIncomeRaw) / parseFloat(revenueCurrentRaw) * 100`
and `formatPercentageInternal`)

JavaScript float semantics are modelled explicitly here because the claim
is about NaN/Infinity handling: `parseFloat('N/A') = NaN`, division by zero
yields `±Infinity` (or `NaN` for `0/0`), and `isNaN(Infinity)` is false. -/

/-- A statement value as returned by `findFinancialByYearInternal`: the
`'N/A'` default or a numeric line item. -/
inductive FinValue where
  | na : FinValue
  | num : ℚ → FinValue
deriving DecidableEq

/-- An IEEE-style JS number restricted to the values reachable here. -/
inductive JSNum where
  | nan : JSNum
  | inf : JSNum
  | ninf : JSNum
  | num : ℚ → JSNum
deriving DecidableEq

/-- Source `parseFloat` on a statement value: `'N/A'` parses to NaN (`none`). -/
def parseFloatFV : FinValue → Option ℚ
  | FinValue.na => none
  | FinValue.num q => some q

/-- JS division of two parsed values: NaN-propagating, with the IEEE
zero-denominator behaviour (`a/0 = ±Infinity` for `a ≠ 0`, `0/0 = NaN`). -/
def jsDivFV : Option ℚ → Option ℚ → JSNum
  | none, _ => JSNum.nan
  | some _, none => JSNum.nan
  | some a, some b =>
    if b = 0 then
      if 0 < a then JSNum.inf else if a < 0 then JSNum.ninf else JSNum.nan
    else JSNum.num (a / b)

/-- JS multiplication by the literal `100`. -/
def jsMul100 : JSNum → JSNum
  | JSNum.nan => JSNum.nan
  | JSNum.inf => JSNum.inf
  | JSNum.ninf => JSNum.ninf
  | JSNum.num q => JSNum.num (q * 100)

/-- The displayed `value` field produced by `formatPercentageInternal`:
the `'N/A'` default, or the `toFixed(2)` rendering of the number (which is
the string `"Infinity"` for an infinite input — `isNaN(Infinity)` is
false, so the NaN guard does not catch it). -/
inductive FmtVal where
  | naStr : FmtVal
  | numStr : JSNum → FmtVal
deriving DecidableEq

/-- Source `formatPercentageInternal` on the numeric `netProfitMarginRaw`
argument: only a NaN input takes the `'N/A'` default branch. -/
def formatPercentageInternal : JSNum → FmtVal
  | JSNum.nan => FmtVal.naStr
  | x => FmtVal.numStr x

/-- The Net Profit Margin metric value of
`calculateProfitabilityMetricsInternal`. -/
def netProfitMarginValue (netIncomeRaw revenueRaw : FinValue) : FmtVal :=
  formatPercentageInternal
    (jsMul100 (jsDivFV (parseFloatFV netIncomeRaw) (parseFloatFV revenueRaw)))

/-- Claim C6 (code bug). A `'N/A'` operand does short-circuit to the N/A
display as claimed, but a zero Revenue with positive Net Income slips
through: `5 / 0 = Infinity`, `isNaN(Infinity)` is false, and the metric is
displayed as the rendering of `Infinity`, not as the NotAvailable
sentinel. -/
theorem C6_net_profit_margin_zero_revenue :
    (∀ rev : FinValue, netProfitMarginValue FinValue.na rev = FmtVal.naStr) ∧
    (∀ ni : FinValue, netProfitMarginValue ni FinValue.na = FmtVal.naStr) ∧
    netProfitMarginValue (FinValue.num 5) (FinValue.num 0) =
      FmtVal.numStr JSNum.inf ∧
    FmtVal.numStr JSNum.inf ≠ FmtVal.naStr := by
  refine ⟨fun rev => rfl, fun ni => ?_, ?_, by simp⟩
  · cases ni <;> rfl
  · norm_num [netProfitMarginValue, parseFloatFV, jsDivFV, jsMul100,
      formatPercentageInternal]

end StockNSE
